import Mathlib

/-!
Verification development for the nanomem frequency-filter data tools
(`combine_freq.py` and `freq-filter-dataviz.py`).

The development shallowly embeds the parts of the two scripts the claims
are about:

* the filename parser `parse_filename` (the nine-field regular expression,
  lines 12-27 of both scripts), modelled as a deterministic backtracking
  parser over `List Char` that reproduces the Python regex semantics:
  the fixed-shape date, greedy complemented character classes (which admit
  exactly one viable match), and the non-greedy `.+?-config_` fragment
  (which tries every candidate position from left to right and commits to
  the first one at which the remainder of the pattern matches);
* the `.txt` directory filter and the `parsed_files` comprehension
  (lines 63-67 of `combine_freq.py`, lines 40-43 of the viewer);
* the grouping loop (lines 75-78 of `combine_freq.py`);
* the per-group combination step (lines 85-127): the required-range
  check, `combine_dataframes`, `sum_datapoint_capture`,
  `find_highest_degradation`, newest-date selection via strict calendar
  parsing, and output-filename synthesis `new_filename`;
* the viewer aggregation of `group_data` (lines 45-77 of the viewer):
  the derived `Normalized_Vout (%)` column and the per-cell mean/std.

Floating point numbers are modelled as exact rationals; pandas missing
values (NaN) are modelled with `Option`.
-/

namespace FreqFilter

/-- Parsed holds the nine named capture groups of the filename pattern of
`parse_filename` (both scripts, lines 12-27), in the order in which they
are captured. -/
structure Parsed where
  date : String
  device_chemistry : String
  device_pixel : String
  device_configuration : String
  device_degradation : String
  frequency_range : String
  datapoint_capture : String
  voltage_offset : String
  voltage_amplitude : String
deriving Repr, DecidableEq

/-- startsWithLit pat l decides whether the literal character sequence
pat occurs at the start of l. -/
def startsWithLit : List Char → List Char → Bool
  | [], _ => true
  | _ :: _, [] => false
  | p :: ps, c :: cs => p = c && startsWithLit ps cs

/-- configLit is the literal `-config_` that terminates the non-greedy
device-configuration capture in the pattern. -/
def configLit : List Char := ['-', 'c', 'o', 'n', 'f', 'i', 'g', '_']

/-- parseDate embeds the fragment `(?P<date>\d{4}-\d{2}-\d{2})_` of the
pattern: the first eleven characters must be four digits, a hyphen, two
digits, a hyphen, two digits and an underscore; the first ten of them are
the date capture.  The fragment is of fixed shape, so the regex engine has
no choice point here. -/
def parseDate : List Char → Option (List Char × List Char)
  | a :: b :: c :: d :: '-' :: e :: f :: '-' :: g :: h :: '_' :: rest =>
    if a.isDigit && b.isDigit && c.isDigit && d.isDigit &&
       e.isDigit && f.isDigit && g.isDigit && h.isDigit then
      some ([a, b, c, d, '-', e, f, '-', g, h], rest)
    else none
  | _ => none

/-- parseField embeds a fragment `[^s]+s` of the pattern (a greedy run of
characters other than the stop character, followed by the literal stop
character).  Such a fragment has exactly one viable match: shortening the
greedy run would place a non-stop character under the literal.  Returns
the captured run and the remainder after the stop character. -/
def parseField (stop : Char) (l : List Char) : Option (List Char × List Char) :=
  match l.takeWhile (fun c => c ≠ stop), l.dropWhile (fun c => c ≠ stop) with
  | c :: run, _ :: rest => some (c :: run, rest)
  | _, _ => none

/-- parseAmp embeds the final fragment `(?P<voltage_amplitude>[^V]+)Vpk`:
a greedy run of non-V characters, then the literal `Vpk`.  If the first
V of the input is not followed by `pk` the fragment fails — shortening
the run cannot help, since it would place a non-V character under the
literal V.  Anything may follow `pk`, because the Python code uses
`pattern.match`, which does not anchor the end. -/
def parseAmp (l : List Char) : Option (List Char × List Char) :=
  match parseField 'V' l with
  | some (run, p :: k :: rest) =>
    if p = 'p' ∧ k = 'k' then some (run, rest) else none
  | _ => none

/-- parseTail embeds the pattern suffix that follows the literal
`-config_`: four `[^_]+_` fields (degradation, frequency range, datapoint
capture, voltage offset) and the amplitude fragment.  None of these
fragments has a choice point, so the suffix parses deterministically. -/
def parseTail (l : List Char) :
    Option (List Char × List Char × List Char × List Char × List Char) := do
  let (deg, l) ← parseField '_' l
  let (freq, l) ← parseField '_' l
  let (cap, l) ← parseField '_' l
  let (off, l) ← parseField '_' l
  let (amp, _) ← parseAmp l
  return (deg, freq, cap, off, amp)

/-- scanConfig embeds the non-greedy fragment
`(?P<device_configuration>.+?)-config_` followed by the rest of the
pattern.  acc holds the characters already consumed by `.+?` (at least
one, consumed by the caller).  At each position the engine first tries to
match the literal `-config_` and the remainder of the pattern; if that
fails it lets `.+?` consume one more character (which must not be a
newline, since `.` does not match newlines) and retries one position to
the right. -/
def scanConfig (acc : List Char) :
    List Char → Option (List Char × (List Char × List Char × List Char × List Char × List Char))
  | [] => none
  | c :: rest =>
    match (if startsWithLit configLit (c :: rest)
           then parseTail ((c :: rest).drop configLit.length) else none) with
    | some t => some (acc, t)
    | none => if c = '\n' then none else scanConfig (acc ++ [c]) rest

/-- parseConfigAndTail starts the non-greedy configuration capture: at
least one character is consumed by `.+?` (and may not be a newline)
before the scan for the `-config_` literal begins. -/
def parseConfigAndTail :
    List Char → Option (List Char × (List Char × List Char × List Char × List Char × List Char))
  | [] => none
  | c :: rest => if c = '\n' then none else scanConfig [c] rest

/-- parseBody runs the part of the pattern that follows the date and its
underscore: chemistry, pixel, the non-greedy configuration, and the tail
fields.  The date field of its result is a placeholder that parseF
overwrites with the date capture. -/
def parseBody (l : List Char) : Option Parsed := do
  let (chem, l) ← parseField '-' l
  let (pixel, l) ← parseField '_' l
  let (config, deg, freq, cap, off, amp) ← parseConfigAndTail l
  return { date := "", device_chemistry := ⟨chem⟩, device_pixel := ⟨pixel⟩,
           device_configuration := ⟨config⟩, device_degradation := ⟨deg⟩,
           frequency_range := ⟨freq⟩, datapoint_capture := ⟨cap⟩,
           voltage_offset := ⟨off⟩, voltage_amplitude := ⟨amp⟩ }

/-- parseF runs the whole anchored pattern on a character list, returning
the nine captures on success and none on failure, exactly as
`parse_filename` returns `match.groupdict()` or `None`. -/
def parseF (l : List Char) : Option Parsed := do
  let (date, l) ← parseDate l
  let p ← parseBody l
  return { p with date := ⟨date⟩ }

/-- parse_filename embeds `parse_filename` of both scripts (lines 12-27):
it matches the anchored nine-field pattern against the filename and
returns either all nine captures or nothing. -/
def parse_filename (s : String) : Option Parsed := parseF s.data

/-- dateShapeL decides whether a character list has the ten-character
shape `\d{4}-\d{2}-\d{2}` accepted by the date field of the pattern. -/
def dateShapeL : List Char → Bool
  | [a, b, c, d, '-', e, f, '-', g, h] =>
    a.isDigit && b.isDigit && c.isDigit && d.isDigit &&
    e.isDigit && f.isDigit && g.isDigit && h.isDigit
  | _ => false

/-- hasSuffixTxt models Python `f.endswith(".txt")` (line 64 of
`combine_freq.py` and line 40 of the viewer): the reversed character list
must start with the reversal of `.txt`. -/
def hasSuffixTxt (f : String) : Bool :=
  startsWithLit ['t', 'x', 't', '.'] f.data.reverse

/-- txt_files models the list comprehension selecting the directory
entries whose names end in `.txt` (line 64 of `combine_freq.py`, line 40
of the viewer); entries is the directory listing. -/
def txt_files (entries : List String) : List String :=
  entries.filter (fun f => hasSuffixTxt f)

/-- parsed_files models the dict comprehension
`{file: parse_filename(file) for file in txt_files if parse_filename(file)}`
(line 67 of `combine_freq.py`, line 43 of the viewer): filenames that do
not match the pattern are silently dropped, the rest are paired with
their full nine-field parse. -/
def parsed_files (files : List String) : List (String × Parsed) :=
  files.filterMap (fun f => (parse_filename f).map (fun p => (f, p)))

/-- FieldName enumerates the nine metadata fields in the insertion order
of the Python dict returned by `match.groupdict()`, which is the capture
order of the pattern. -/
inductive FieldName
  | date
  | device_chemistry
  | device_pixel
  | device_configuration
  | device_degradation
  | frequency_range
  | datapoint_capture
  | voltage_offset
  | voltage_amplitude
deriving Repr, DecidableEq

/-- allFields lists the nine field names in dict iteration order. -/
def allFields : List FieldName :=
  [.date, .device_chemistry, .device_pixel, .device_configuration,
   .device_degradation, .frequency_range, .datapoint_capture,
   .voltage_offset, .voltage_amplitude]

/-- fieldVal reads the named field out of a parse result. -/
def fieldVal (p : Parsed) : FieldName → String
  | .date => p.date
  | .device_chemistry => p.device_chemistry
  | .device_pixel => p.device_pixel
  | .device_configuration => p.device_configuration
  | .device_degradation => p.device_degradation
  | .frequency_range => p.frequency_range
  | .datapoint_capture => p.datapoint_capture
  | .voltage_offset => p.voltage_offset
  | .voltage_amplitude => p.voltage_amplitude

/-- groupKey models the grouping key of line 77 of `combine_freq.py`:
the tuple of (name, value) pairs over the fields not in the excluded
set, in dict iteration order. -/
def groupKey (excl : List FieldName) (p : Parsed) : List (FieldName × String) :=
  (allFields.filter (fun k => !decide (k ∈ excl))).map (fun k => (k, fieldVal p k))

/-- batchExcl is the exclusion set of line 77 of `combine_freq.py`. -/
def batchExcl : List FieldName :=
  [.frequency_range, .datapoint_capture, .device_degradation, .date]

/-- grouped_files models the defaultdict loop of lines 75-78 of
`combine_freq.py` extensionally: one entry per distinct key, keys in
first-occurrence order, and each key paired with the filenames whose
parse has that key, in input order — exactly the contents the
defaultdict holds after the loop. -/
def grouped_files (excl : List FieldName) (l : List (String × Parsed)) :
    List (List (FieldName × String) × List String) :=
  ((l.map (fun fp => groupKey excl fp.2)).dedup).map
    (fun k => (k, (l.filter (fun fp => decide (groupKey excl fp.2 = k))).map Prod.fst))

/-- required_ranges is the required sub-range set of line 86 of
`combine_freq.py` (a Python set literal, modelled as the list of its
elements; set semantics enter through `List.toFinset`). -/
def required_ranges : List String := ["500k-5kHz", "5k-200Hz", "200-1Hz"]

/-- frequency_ranges models line 87: the list of frequency_range values
over the group members. -/
def frequency_ranges (members : List Parsed) : List String :=
  members.map (fun p => p.frequency_range)

/-- rangesMatch models the guard `set(frequency_ranges) == required_ranges`
of line 92 of `combine_freq.py`: Python set equality, i.e. equality of the
finite sets of elements. -/
def rangesMatch (rs : List String) : Bool :=
  decide (rs.toFinset = required_ranges.toFinset)

/-- Row is one row of a numeric table: the value of the
`Oscilator_frequency (Hz)` column paired with the values of the
remaining numeric columns.  Floats are modelled as exact rationals. -/
abbrev Row : Type := ℚ × List ℚ

/-- colSum adds a list of equal-length numeric rows columnwise. -/
def colSum : List (List ℚ) → List ℚ
  | [] => []
  | [xs] => xs
  | xs :: rest => List.zipWith (fun a b => a + b) xs (colSum rest)

/-- meanCols is the columnwise arithmetic mean of a cluster of rows, as
computed by the pandas `mean` aggregation over a group. -/
def meanCols (xss : List (List ℚ)) : List ℚ :=
  (colSum xss).map (fun v => v / (xss.length : ℚ))

/-- combine_dataframes models `combine_dataframes` (lines 40-44 of
`combine_freq.py`): concatenate the tables, group rows by exact equality
of the frequency column, replace every cluster by the columnwise
arithmetic mean, and return the rows sorted ascending by frequency (the
pandas groupby sorts its keys ascending and the subsequent stable
`sort_values` keeps that order). -/
def combine_dataframes (dfs : List (List Row)) : List Row :=
  let all := dfs.flatten
  (((all.map Prod.fst).dedup).insertionSort (fun a b => a ≤ b)).map
    (fun f => (f, meanCols ((all.filter (fun r => decide (r.1 = f))).map Prod.snd)))

/-- digitRunsAux scans a character list and collects the maximal runs of
decimal digits, as `re.findall(r"\d+", s)` does; cur holds the reversed
current run. -/
def digitRunsAux : List Char → List Char → List (List Char)
  | cur, [] => if cur = [] then [] else [cur.reverse]
  | cur, c :: rest =>
    if c.isDigit then digitRunsAux (c :: cur) rest
    else if cur = [] then digitRunsAux [] rest
    else cur.reverse :: digitRunsAux [] rest

/-- digitRuns lists the maximal decimal-digit substrings of a character
list, left to right, modelling `re.findall(r"\d+", ·)`. -/
def digitRuns (l : List Char) : List (List Char) := digitRunsAux [] l

/-- digitsVal reads a digit run as a decimal natural number, modelling
Python `int`. -/
def digitsVal (l : List Char) : ℕ :=
  l.foldl (fun acc c => 10 * acc + (c.toNat - 48)) 0

/-- sum_datapoint_capture models `sum_datapoint_capture` (lines 47-52 of
`combine_freq.py`): over every token, every maximal integer substring is
found and all of them are added to the running total. -/
def sum_datapoint_capture (dcs : List String) : ℕ :=
  (dcs.map (fun dc => ((digitRuns dc.data).map digitsVal).sum)).sum

/-- find_highest_degradation models `find_highest_degradation`
(lines 55-61 of `combine_freq.py`): starting from 0, for every token with
at least one integer substring the running maximum absorbs the largest of
them. -/
def find_highest_degradation (dds : List String) : ℕ :=
  dds.foldl
    (fun highest dd =>
      match (digitRuns dd.data).map digitsVal with
      | [] => highest
      | n :: ns => max highest (ns.foldl max n))
    0

/-- natToCharsAux produces the decimal digits of n, most significant
first; the fuel argument is any strict upper bound on n and only serves
to make the recursion structural. -/
def natToCharsAux : ℕ → ℕ → List Char
  | 0, _ => []
  | fuel + 1, n =>
    if n < 10 then [Char.ofNat (48 + n)]
    else natToCharsAux fuel (n / 10) ++ [Char.ofNat (48 + n % 10)]

/-- natToChars is the decimal representation of a natural number, as
Python string formatting produces it. -/
def natToChars (n : ℕ) : List Char := natToCharsAux (n + 1) n

/-- natStr wraps natToChars into a string. -/
def natStr (n : ℕ) : String := ⟨natToChars n⟩

/-- isLeapYear is the Gregorian leap-year rule used by Python
`datetime`. -/
def isLeapYear (y : ℕ) : Bool :=
  (y % 4 = 0 && y % 100 ≠ 0) || y % 400 = 0

/-- daysInMonth is the day count of a month, as validated by Python
`datetime`. -/
def daysInMonth (y m : ℕ) : ℕ :=
  if m = 2 then (if isLeapYear y then 29 else 28)
  else if m = 4 || m = 6 || m = 9 || m = 11 then 30
  else 31

/-- parseDateStrict models `datetime.strptime(x, "%Y-%m-%d")` (line 102
of `combine_freq.py`) restricted to the ten-character zero-padded shape
that `parse_filename` produces: besides the digit shape, the month must
be 1-12 and the day must exist in that month, otherwise `strptime`
raises (modelled as none).  On success it returns the (year, month, day)
triple, on which datetime comparison is lexicographic. -/
def parseDateStrict (s : String) : Option (ℕ × ℕ × ℕ) :=
  match s.data with
  | [a, b, c, d, '-', e, f, '-', g, h] =>
    if a.isDigit && b.isDigit && c.isDigit && d.isDigit &&
       e.isDigit && f.isDigit && g.isDigit && h.isDigit then
      let y := digitsVal [a, b, c, d]
      let m := digitsVal [e, f]
      let dy := digitsVal [g, h]
      if 1 ≤ m && m ≤ 12 && 1 ≤ dy && dy ≤ daysInMonth y m then
        some (y, m, dy) else none
    else none
  | _ => none

/-- dateLt is the lexicographic order on (year, month, day) triples,
the order in which datetime objects compare. -/
def dateLt (a b : ℕ × ℕ × ℕ) : Bool :=
  a.1 < b.1 || (a.1 = b.1 && (a.2.1 < b.2.1 || (a.2.1 = b.2.1 && a.2.2 < b.2.2)))

/-- newest_date models line 102 of `combine_freq.py`,
`max(dates, key=lambda x: datetime.strptime(x, "%Y-%m-%d"))`: every date
string is parsed strictly (an unparseable date raises, modelled as
none; so does an empty list), and among the parsed dates the first one
with the maximal key is returned, as Python `max` does. -/
def newest_date (dates : List String) : Option String := do
  let keyed ← dates.mapM (fun d => (parseDateStrict d).map (fun k => (d, k)))
  match keyed with
  | [] => none
  | x :: xs =>
    some (xs.foldl (fun best y => if dateLt best.2 y.2 then y else best) x).1

/-- GroupKey carries the five field values shared by all members of a
batch-tool group (`characteristics = dict(key)`, line 97 of
`combine_freq.py`). -/
structure GroupKey where
  device_chemistry : String
  device_pixel : String
  device_configuration : String
  voltage_offset : String
  voltage_amplitude : String
deriving Repr, DecidableEq

/-- new_filename models the f-string of lines 109-118 of
`combine_freq.py`, with `combined_freq_range = "500k-1Hz"` (line 107)
inlined: the synthesized output filename of a combined group. -/
def new_filename (newest : String) (chem pixel config : String)
    (highest total : ℕ) (off amp : String) : String :=
  newest ++ "_" ++ chem ++ "-" ++ pixel ++ "_" ++ config ++ "-config_" ++
    natStr highest ++ "daydeg_" ++ "500k-1Hz" ++ "_" ++
    natStr total ++ "p-1s_" ++ off ++ "_" ++ amp ++ "Vpk.txt"

/-- processGroup models one iteration of the combine loop (lines 85-127
of `combine_freq.py`) for a group with the given key, members and loaded
tables: if the frequency-range set differs from the required set the
group is skipped and no file is produced (none); otherwise the tables
are combined and the output filename is synthesized from the newest
date, the summed capture count and the peak degradation.  A date that
`strptime` rejects aborts the run (none, no output). -/
def processGroup (key : GroupKey) (members : List Parsed)
    (dfs : List (List Row)) : Option (String × List Row) :=
  if rangesMatch (frequency_ranges members) then
    (newest_date (members.map (fun p => p.date))).map (fun nd =>
      (new_filename nd key.device_chemistry key.device_pixel
        key.device_configuration
        (find_highest_degradation (members.map (fun p => p.device_degradation)))
        (sum_datapoint_capture (members.map (fun p => p.datapoint_capture)))
        key.voltage_offset key.voltage_amplitude,
       combine_dataframes dfs))
  else none

/-- Normalized_Vout models line 57 of the viewer,
`(df["Demod_4_X_A (V)"] / (df["voltage_amplitude"] / 1.4142)) * 100`,
for one row; the literal 1.4142 of the source is the rational
14142/10000. -/
def Normalized_Vout (primary voltage_amplitude : ℚ) : ℚ :=
  (primary / (voltage_amplitude / (14142 / 10000))) * 100

/-- VRow is one row of the viewer's concatenated table, carrying the
grouping columns attached in `group_data` (chemistry as a string,
amplitude as a number), the frequency, and the value of one numeric
column. -/
structure VRow where
  device_chemistry : String
  voltage_amplitude : ℚ
  freq : ℚ
  value : ℚ

/-- cellValues models the rows contributing to one
(chemistry, amplitude, frequency) cell of the groupby of lines 72-73 of
the viewer, for one numeric column. -/
def cellValues (rows : List VRow) (c : String) (va f : ℚ) : List ℚ :=
  (rows.filter (fun r =>
    decide (r.device_chemistry = c ∧ r.voltage_amplitude = va ∧ r.freq = f))).map
    (fun r => r.value)

/-- meanCell is the pandas `mean` of one groupby cell: defined whenever
the cell has at least one contributing row. -/
def meanCell (xs : List ℚ) : Option ℚ :=
  if xs.length = 0 then none else some (xs.sum / (xs.length : ℚ))

/-- stdCell models the definedness and square of the pandas `std` of one
groupby cell (line 73 of the viewer).  Pandas `std` uses ddof = 1: it is
the square root of the sample variance and is NaN — modelled as none —
exactly when fewer than two rows contribute.  We carry the sample
variance itself (the square of the std), which is defined, and missing,
exactly when the std is. -/
def stdCell (xs : List ℚ) : Option ℚ :=
  if xs.length < 2 then none
  else some ((xs.map (fun x => (x - xs.sum / (xs.length : ℚ)) ^ 2)).sum /
    ((xs.length : ℚ) - 1))

lemma mem_parsed_files {L : List String} {f : String} {p : Parsed} :
    (f, p) ∈ parsed_files L ↔ f ∈ L ∧ parse_filename f = some p := by
  simp only [parsed_files, List.mem_filterMap]
  constructor
  · rintro ⟨a, ha, hmap⟩
    cases hpa : parse_filename a with
    | none => rw [hpa] at hmap; simp at hmap
    | some q =>
      rw [hpa] at hmap
      simp only [Option.map_some', Option.some.injEq, Prod.mk.injEq] at hmap
      obtain ⟨rfl, rfl⟩ := hmap
      exact ⟨ha, hpa⟩
  · rintro ⟨hf, hp⟩
    exact ⟨f, hf, by rw [hp]; rfl⟩

lemma grouped_files_mem {excl : List FieldName} {l : List (String × Parsed)}
    {k : List (FieldName × String)} {ms : List String} :
    (k, ms) ∈ grouped_files excl l ↔
      k ∈ (l.map (fun fp => groupKey excl fp.2)).dedup ∧
      ms = (l.filter (fun fp => decide (groupKey excl fp.2 = k))).map Prod.fst := by
  simp only [grouped_files, List.mem_map, Prod.mk.injEq]
  constructor
  · rintro ⟨a, ha, rfl, rfl⟩
    exact ⟨ha, rfl⟩
  · rintro ⟨hk, rfl⟩
    exact ⟨k, hk, rfl, rfl⟩

lemma mem_group_members {excl : List FieldName} {l : List (String × Parsed)}
    {k : List (FieldName × String)} {ms : List String} {f : String}
    (h : (k, ms) ∈ grouped_files excl l) :
    f ∈ ms ↔ ∃ p, (f, p) ∈ l ∧ groupKey excl p = k := by
  obtain ⟨-, rfl⟩ := grouped_files_mem.mp h
  simp only [List.mem_map, List.mem_filter, decide_eq_true_eq]
  constructor
  · rintro ⟨⟨a, q⟩, ⟨hmem, hkey⟩, rfl⟩
    exact ⟨q, hmem, hkey⟩
  · rintro ⟨p, hmem, hkey⟩
    exact ⟨(f, p), ⟨hmem, hkey⟩, rfl⟩

/-- C1: for every group of parsed files, the combination step runs if
and only if the set of frequency_range values over the group's members
is exactly the required set of three sub-range labels; a group whose
range set is a strict subset, a strict superset, or otherwise different
is skipped and produces no output file. -/
theorem claim1 (key : GroupKey) (members : List Parsed) (dfs : List (List Row)) :
    (rangesMatch (frequency_ranges members) = true ↔
      ((∀ r ∈ frequency_ranges members, r ∈ required_ranges) ∧
       (∀ r ∈ required_ranges, r ∈ frequency_ranges members))) ∧
    (rangesMatch (frequency_ranges members) = false →
      processGroup key members dfs = none) := by
  constructor
  · simp only [rangesMatch, decide_eq_true_eq, Finset.ext_iff, List.mem_toFinset]
    constructor
    · intro h
      exact ⟨fun r hr => (h r).mp hr, fun r hr => (h r).mpr hr⟩
    · intro h r
      exact ⟨fun hr => h.1 r hr, fun hr => h.2 r hr⟩
  · intro h
    simp [processGroup, h]

theorem claim1_witness :
    rangesMatch (frequency_ranges
      [⟨"2020-01-01", "A", "B", "c", "0daydeg", "500k-5kHz", "100p", "0off", "1"⟩]) = false ∧
    processGroup ⟨"A", "B", "c", "0off", "1"⟩
      [⟨"2020-01-01", "A", "B", "c", "0daydeg", "500k-5kHz", "100p", "0off", "1"⟩] [] = none :=
  ⟨by decide, (claim1 ⟨"A", "B", "c", "0off", "1"⟩
      [⟨"2020-01-01", "A", "B", "c", "0daydeg", "500k-5kHz", "100p", "0off", "1"⟩] []).2
      (by decide)⟩

lemma meanCols_single (xs : List ℚ) : meanCols [xs] = xs := by
  simp [meanCols, colSum]

/-- C2: for every combinable group, the merged table is the
concatenation of the member rows with every cluster of
equal-frequency rows replaced by the columnwise arithmetic mean of the
cluster, rows with distinct frequencies left unmerged, and the result
sorted strictly ascending by the frequency column; two rows at
frequency 1000.0 with channel values 2.0 and 4.0 yield 3.0. -/
theorem claim2 :
    (∀ dfs : List (List Row),
      ((combine_dataframes dfs).map Prod.fst).Pairwise (fun a b => a < b) ∧
      (∀ f : ℚ, f ∈ (combine_dataframes dfs).map Prod.fst ↔ f ∈ dfs.flatten.map Prod.fst) ∧
      (∀ f vs, (f, vs) ∈ combine_dataframes dfs →
        vs = meanCols ((dfs.flatten.filter (fun r => decide (r.1 = f))).map Prod.snd)) ∧
      (∀ f vs, dfs.flatten.filter (fun r => decide (r.1 = f)) = [(f, vs)] →
        (f, vs) ∈ combine_dataframes dfs)) ∧
    combine_dataframes [[((1000 : ℚ), [2])], [((1000 : ℚ), [4]), ((500 : ℚ), [7])]] =
      [(500, [7]), (1000, [3])] := by
  constructor
  · intro dfs
    have hperm := List.perm_insertionSort (fun a b : ℚ => a ≤ b) ((dfs.flatten.map Prod.fst).dedup)
    have hsorted := List.sorted_insertionSort (fun a b : ℚ => a ≤ b) ((dfs.flatten.map Prod.fst).dedup)
    have hnodup : ((dfs.flatten.map Prod.fst).dedup.insertionSort (fun a b => a ≤ b)).Nodup :=
      hperm.nodup_iff.mpr (List.nodup_dedup _)
    have hmap : (combine_dataframes dfs).map Prod.fst =
        (dfs.flatten.map Prod.fst).dedup.insertionSort (fun a b => a ≤ b) := by
      simp only [combine_dataframes, List.map_map]
      exact List.map_id'' (fun x => rfl) _
    refine ⟨?_, ?_, ?_, ?_⟩
    · rw [hmap]
      exact (hsorted.and hnodup).imp (fun h => lt_of_le_of_ne h.1 h.2)
    · intro f
      rw [hmap, hperm.mem_iff, List.mem_dedup]
    · intro f vs hm
      simp only [combine_dataframes, List.mem_map] at hm
      obtain ⟨a, ha, heq⟩ := hm
      injection heq with h1 h2
      subst h1
      exact h2.symm
    · intro f vs hfil
      have hfmem : (f, vs) ∈ dfs.flatten := by
        have : (f, vs) ∈ dfs.flatten.filter (fun r => decide (r.1 = f)) := by
          rw [hfil]
          exact List.mem_singleton_self _
        exact List.mem_of_mem_filter this
      have hffreq : f ∈ (dfs.flatten.map Prod.fst).dedup.insertionSort (fun a b => a ≤ b) := by
        rw [hperm.mem_iff, List.mem_dedup]
        exact List.mem_map_of_mem Prod.fst hfmem
      simp only [combine_dataframes, List.mem_map]
      refine ⟨f, hffreq, ?_⟩
      rw [hfil]
      simp [meanCols_single]
  · norm_num [combine_dataframes, List.dedup, List.insertionSort, List.orderedInsert,
      List.filter, meanCols, colSum]

theorem claim2_witness :
    ([[((500 : ℚ), [7])]] : List (List Row)).flatten.filter
      (fun r => decide (r.1 = (500 : ℚ))) = [((500 : ℚ), [7])] ∧
    ((500 : ℚ), ([7] : List ℚ)) ∈ combine_dataframes [[((500 : ℚ), [7])]] := by
  have h : ([[((500 : ℚ), [7])]] : List (List Row)).flatten.filter
      (fun r => decide (r.1 = (500 : ℚ))) = [((500 : ℚ), [7])] := by
    norm_num [List.filter]
  exact ⟨h, (claim2.1 [[((500 : ℚ), [7])]]).2.2.2 500 [7] h⟩

lemma eq_snd_of_nodup_fst {l : List (String × Parsed)} (hnd : (l.map Prod.fst).Nodup)
    {f : String} {p q : Parsed} (hp : (f, p) ∈ l) (hq : (f, q) ∈ l) : p = q := by
  induction l with
  | nil => cases hp
  | cons x xs ih =>
    rw [List.map_cons, List.nodup_cons] at hnd
    rcases List.mem_cons.mp hp with rfl | hp'
    · rcases List.mem_cons.mp hq with hqx | hq'
      · injection hqx with h1 h2
        exact h2.symm
      · exact absurd (List.mem_map_of_mem Prod.fst hq') hnd.1
    · rcases List.mem_cons.mp hq with rfl | hq'
      · exact absurd (List.mem_map_of_mem Prod.fst hp') hnd.1
      · exact ih hnd.2 hp' hq'

lemma group_mem_iff (excl : List FieldName) (l : List (String × Parsed))
    (k : List (FieldName × String)) (f : String) :
    (∃ ms, (k, ms) ∈ grouped_files excl l ∧ f ∈ ms) ↔
      (∃ p, (f, p) ∈ l ∧ groupKey excl p = k) := by
  constructor
  · rintro ⟨ms, hg, hf⟩
    exact (mem_group_members hg).mp hf
  · rintro ⟨p, hm, hk⟩
    have hkd : k ∈ (l.map (fun fp => groupKey excl fp.2)).dedup := by
      rw [List.mem_dedup]
      exact hk ▸ List.mem_map_of_mem _ hm
    refine ⟨_, grouped_files_mem.mpr ⟨hkd, rfl⟩, ?_⟩
    exact (mem_group_members (grouped_files_mem.mpr ⟨hkd, rfl⟩)).mpr ⟨p, hm, hk⟩

/-- C6: for every fixed exclusion set, grouping the parsed files is a
partition — each file appears in the group keyed by its retained field
values, only in that group when filenames are distinct — and group
membership is invariant under any reordering of the input list. -/
theorem claim6 (excl : List FieldName) (l : List (String × Parsed)) :
    (∀ f p, (f, p) ∈ l →
      ∃ ms, (groupKey excl p, ms) ∈ grouped_files excl l ∧ f ∈ ms) ∧
    ((l.map Prod.fst).Nodup →
      ∀ f p k ms, (f, p) ∈ l → (k, ms) ∈ grouped_files excl l → f ∈ ms →
        k = groupKey excl p) ∧
    (∀ l', l.Perm l' → ∀ k f,
      ((∃ ms, (k, ms) ∈ grouped_files excl l ∧ f ∈ ms) ↔
       (∃ ms, (k, ms) ∈ grouped_files excl l' ∧ f ∈ ms))) := by
  refine ⟨fun f p hfp => ?_, fun hnd f p k ms hfp hg hf => ?_, fun l' hperm k f => ?_⟩
  · exact (group_mem_iff excl l (groupKey excl p) f).mpr ⟨p, hfp, rfl⟩
  · obtain ⟨q, hfq, hkey⟩ := (mem_group_members hg).mp hf
    rw [← hkey, eq_snd_of_nodup_fst hnd hfq hfp]
  · rw [group_mem_iff excl l k f, group_mem_iff excl l' k f]
    constructor
    · rintro ⟨p, hm, hk⟩
      exact ⟨p, hperm.mem_iff.mp hm, hk⟩
    · rintro ⟨p, hm, hk⟩
      exact ⟨p, hperm.mem_iff.mpr hm, hk⟩

theorem claim6_witness :
    ("a.txt", (⟨"2020-01-01", "A", "B", "c", "0daydeg", "500k-5kHz", "100p", "0off", "1"⟩ : Parsed)) ∈
      ([("a.txt", ⟨"2020-01-01", "A", "B", "c", "0daydeg", "500k-5kHz", "100p", "0off", "1"⟩)] :
        List (String × Parsed)) ∧
    ∃ ms, (groupKey batchExcl ⟨"2020-01-01", "A", "B", "c", "0daydeg", "500k-5kHz", "100p", "0off", "1"⟩, ms) ∈
        grouped_files batchExcl
          [("a.txt", ⟨"2020-01-01", "A", "B", "c", "0daydeg", "500k-5kHz", "100p", "0off", "1"⟩)] ∧
      "a.txt" ∈ ms :=
  ⟨List.mem_singleton_self _,
    (claim6 batchExcl _).1 "a.txt" _ (List.mem_singleton_self _)⟩

lemma startsWithLit_self_append (l r : List Char) : startsWithLit l (l ++ r) = true := by
  induction l with
  | nil => rfl
  | cons c t ih => simp [startsWithLit, ih]

lemma startsWithLit_append_of_le {pat a : List Char} (b : List Char)
    (h : pat.length ≤ a.length) :
    startsWithLit pat (a ++ b) = startsWithLit pat a := by
  induction pat generalizing a with
  | nil => rfl
  | cons p ps ih =>
    cases a with
    | nil => simp at h
    | cons c t =>
      have hrec := ih (a := t) (by simpa using h)
      simp only [List.cons_append, startsWithLit, List.append_eq] at hrec ⊢
      rw [hrec]

lemma startsWithLit_split (pat a b : List Char) :
    startsWithLit pat (a ++ b) =
      (startsWithLit (pat.take a.length) a && startsWithLit (pat.drop a.length) b) := by
  induction a generalizing pat with
  | nil => simp [startsWithLit]
  | cons c t ih =>
    cases pat with
    | nil => simp [startsWithLit]
    | cons p ps =>
      have hrec := ih ps
      simp only [List.cons_append, startsWithLit, List.length_cons, List.take_succ_cons,
        List.drop_succ_cons, List.append_eq, Bool.and_assoc] at hrec ⊢
      rw [hrec]

lemma configLit_no_overlap (k : ℕ) (h1 : 1 ≤ k) (h2 : k ≤ 7) (r : List Char) :
    startsWithLit (configLit.drop k) (configLit ++ r) = false := by
  interval_cases k <;> simp [configLit, startsWithLit]

lemma takeWhile_eq_tok {stop : Char} {tok : List Char} (rest : List Char)
    (h : ∀ c ∈ tok, c ≠ stop) :
    (tok ++ stop :: rest).takeWhile (fun c => c ≠ stop) = tok := by
  induction tok with
  | nil =>
    rw [List.nil_append, List.takeWhile_cons_of_neg (by simp)]
  | cons c t ih =>
    have hc : c ≠ stop := h c (List.mem_cons_self c t)
    rw [List.cons_append,
      List.takeWhile_cons_of_pos (p := fun c => decide (c ≠ stop)) (decide_eq_true hc),
      ih (fun x hx => h x (List.mem_cons_of_mem c hx))]

lemma dropWhile_eq_rest {stop : Char} {tok : List Char} (rest : List Char)
    (h : ∀ c ∈ tok, c ≠ stop) :
    (tok ++ stop :: rest).dropWhile (fun c => c ≠ stop) = stop :: rest := by
  induction tok with
  | nil =>
    rw [List.nil_append, List.dropWhile_cons_of_neg (by simp)]
  | cons c t ih =>
    have hc : c ≠ stop := h c (List.mem_cons_self c t)
    rw [List.cons_append,
      List.dropWhile_cons_of_pos (p := fun c => decide (c ≠ stop)) (decide_eq_true hc),
      ih (fun x hx => h x (List.mem_cons_of_mem c hx))]

lemma parseField_exact {stop : Char} {tok : List Char} (rest : List Char)
    (h1 : tok ≠ []) (h2 : ∀ c ∈ tok, c ≠ stop) :
    parseField stop (tok ++ stop :: rest) = some (tok, rest) := by
  unfold parseField
  rw [takeWhile_eq_tok rest h2, dropWhile_eq_rest rest h2]
  cases tok with
  | nil => exact absurd rfl h1
  | cons c t => rfl

lemma parseField_eq_some {stop : Char} {l run rest : List Char}
    (h : parseField stop l = some (run, rest)) :
    run ≠ [] ∧ ∀ c ∈ run, c ≠ stop := by
  unfold parseField at h
  split at h
  · rename_i c run' d rest' htw hdw
    injection h with h1
    injection h1 with ha hb
    refine ⟨by rw [← ha]; simp, fun x hx => ?_⟩
    rw [← ha, ← htw] at hx
    simpa using List.mem_takeWhile_imp hx
  · simp at h

lemma parseAmp_exact {amp : List Char} (rest : List Char)
    (h1 : amp ≠ []) (h2 : ∀ c ∈ amp, c ≠ 'V') :
    parseAmp (amp ++ 'V' :: 'p' :: 'k' :: rest) = some (amp, rest) := by
  unfold parseAmp
  rw [parseField_exact ('p' :: 'k' :: rest) h1 h2]
  simp

lemma parseAmp_eq_some {l amp rest : List Char} (h : parseAmp l = some (amp, rest)) :
    amp ≠ [] ∧ ∀ c ∈ amp, c ≠ 'V' := by
  unfold parseAmp at h
  split at h
  · rename_i run p k rest' heq
    split at h
    · injection h with h1
      injection h1 with ha hb
      rw [← ha]
      exact parseField_eq_some heq
    · simp at h
  · simp at h

lemma parseTail_exact {dg fr cp off amp : List Char} (tail : List Char)
    (hdg1 : dg ≠ []) (hdg2 : ∀ c ∈ dg, c ≠ '_')
    (hfr1 : fr ≠ []) (hfr2 : ∀ c ∈ fr, c ≠ '_')
    (hcp1 : cp ≠ []) (hcp2 : ∀ c ∈ cp, c ≠ '_')
    (hoff1 : off ≠ []) (hoff2 : ∀ c ∈ off, c ≠ '_')
    (hamp1 : amp ≠ []) (hamp2 : ∀ c ∈ amp, c ≠ 'V') :
    parseTail (dg ++ '_' :: (fr ++ '_' :: (cp ++ '_' :: (off ++ '_' ::
      (amp ++ 'V' :: 'p' :: 'k' :: tail))))) = some (dg, fr, cp, off, amp) := by
  unfold parseTail
  rw [parseField_exact _ hdg1 hdg2]
  simp only [Option.bind_eq_bind, Option.some_bind]
  rw [parseField_exact _ hfr1 hfr2]
  simp only [Option.some_bind]
  rw [parseField_exact _ hcp1 hcp2]
  simp only [Option.some_bind]
  rw [parseField_exact _ hoff1 hoff2]
  simp only [Option.some_bind]
  rw [parseAmp_exact tail hamp1 hamp2]
  rfl

lemma parseTail_eq_some {l dg fr cp off amp : List Char}
    (h : parseTail l = some (dg, fr, cp, off, amp)) :
    (dg ≠ [] ∧ ∀ c ∈ dg, c ≠ '_') ∧ (fr ≠ [] ∧ ∀ c ∈ fr, c ≠ '_') ∧
    (cp ≠ [] ∧ ∀ c ∈ cp, c ≠ '_') ∧ (off ≠ [] ∧ ∀ c ∈ off, c ≠ '_') ∧
    (amp ≠ [] ∧ ∀ c ∈ amp, c ≠ 'V') := by
  unfold parseTail at h
  cases h1 : parseField '_' l with
  | none => rw [h1] at h; simp at h
  | some x1 =>
    obtain ⟨dg1, l1⟩ := x1
    rw [h1] at h
    simp only [Option.bind_eq_bind, Option.some_bind] at h
    cases h2 : parseField '_' l1 with
    | none => rw [h2] at h; simp at h
    | some x2 =>
      obtain ⟨fr1, l2⟩ := x2
      rw [h2] at h
      simp only [Option.some_bind] at h
      cases h3 : parseField '_' l2 with
      | none => rw [h3] at h; simp at h
      | some x3 =>
        obtain ⟨cp1, l3⟩ := x3
        rw [h3] at h
        simp only [Option.some_bind] at h
        cases h4 : parseField '_' l3 with
        | none => rw [h4] at h; simp at h
        | some x4 =>
          obtain ⟨off1, l4⟩ := x4
          rw [h4] at h
          simp only [Option.some_bind] at h
          cases h5 : parseAmp l4 with
          | none => rw [h5] at h; simp at h
          | some x5 =>
            obtain ⟨amp1, l5⟩ := x5
            rw [h5] at h
            simp only [Option.some_bind, Option.some.injEq, Prod.mk.injEq] at h
            obtain ⟨rfl, rfl, rfl, rfl, rfl⟩ := h
            exact ⟨parseField_eq_some h1, parseField_eq_some h2, parseField_eq_some h3,
              parseField_eq_some h4, parseAmp_eq_some h5⟩

lemma parseDate_of_shape {d : List Char} (rest : List Char) (h : dateShapeL d = true) :
    parseDate (d ++ '_' :: rest) = some (d, rest) := by
  unfold dateShapeL at h
  split at h
  · rename_i a b c d' e f g hh
    simp only [List.cons_append, List.nil_append]
    simp only [parseDate]
    rw [if_pos h]
  · simp at h

lemma parseDate_eq_some {l d rest : List Char} (h : parseDate l = some (d, rest)) :
    dateShapeL d = true ∧ l = d ++ '_' :: rest := by
  unfold parseDate at h
  split at h
  · rename_i a b c d' e f g hh
    split at h
    · rename_i hdig
      injection h with h1
      injection h1 with ha hb
      subst hb
      rw [← ha]
      constructor
      · simpa [dateShapeL] using hdig
      · simp
    · simp at h
  · simp at h

lemma scanConfig_nil (acc : List Char) : scanConfig acc [] = none := rfl

lemma scanConfig_cons (acc : List Char) (c : Char) (rest : List Char) :
    scanConfig acc (c :: rest) =
      match (if startsWithLit configLit (c :: rest)
             then parseTail ((c :: rest).drop configLit.length) else none) with
      | some t => some (acc, t)
      | none => if c = '\n' then none else scanConfig (acc ++ [c]) rest := rfl

lemma scanConfig_found (acc : List Char) {t : List Char}
    {x : List Char × List Char × List Char × List Char × List Char}
    (h : parseTail t = some x) :
    scanConfig acc ('-' :: 'c' :: 'o' :: 'n' :: 'f' :: 'i' :: 'g' :: '_' :: t) =
      some (acc, x) := by
  have hs : startsWithLit configLit ('-' :: 'c' :: 'o' :: 'n' :: 'f' :: 'i' :: 'g' :: '_' :: t) = true :=
    startsWithLit_self_append configLit t
  have hd : ('-' :: 'c' :: 'o' :: 'n' :: 'f' :: 'i' :: 'g' :: '_' :: t).drop configLit.length = t := rfl
  rw [scanConfig_cons, hs, hd]
  simp [h]

lemma scanConfig_skip (acc m s : List Char) :
    (∀ c ∈ m, c ≠ '\n') →
    (∀ i, i < m.length → startsWithLit configLit (m.drop i ++ s) = false) →
    scanConfig acc (m ++ s) = scanConfig (acc ++ m) s := by
  induction m generalizing acc with
  | nil => intro _ _; simp
  | cons c t ih =>
    intro hnl hfail
    have h0 : startsWithLit configLit (c :: (t ++ s)) = false := by
      simpa using hfail 0 (by simp)
    have hc : c ≠ '\n' := hnl c (List.mem_cons_self c t)
    have ht : ∀ x ∈ t, x ≠ '\n' := fun x hx => hnl x (List.mem_cons_of_mem c hx)
    have hf : ∀ i, i < t.length → startsWithLit configLit (t.drop i ++ s) = false := by
      intro i hi
      simpa using hfail (i + 1) (by simpa using hi)
    rw [List.cons_append, scanConfig_cons, h0]
    simp only [Bool.false_eq_true, if_false]
    rw [if_neg hc, ih (acc ++ [c]) ht hf, List.append_assoc, List.singleton_append]

lemma scanConfig_eq_some {l acc cfg : List Char}
    {x : List Char × List Char × List Char × List Char × List Char}
    (h : scanConfig acc l = some (cfg, x)) :
    ∃ m t, cfg = acc ++ m ∧ (∀ c ∈ m, c ≠ '\n') ∧ parseTail t = some x := by
  induction l generalizing acc with
  | nil => rw [scanConfig_nil] at h; cases h
  | cons c rest ih =>
    rw [scanConfig_cons] at h
    split at h
    · rename_i t0 heq
      injection h with h1
      injection h1 with ha hb
      subst hb
      refine ⟨[], ?_, by simp [← ha], by simp, ?_⟩
      · exact (c :: rest).drop configLit.length
      · split at heq
        · exact heq
        · cases heq
    · split at h
      · cases h
      · rename_i hne
        obtain ⟨m, t, hcfg, hm, ht⟩ := ih h
        refine ⟨c :: m, t, ?_, ?_, ht⟩
        · rw [hcfg, List.append_assoc, List.singleton_append]
        · intro y hy
          rcases List.mem_cons.mp hy with rfl | hy'
          · exact hne
          · exact hm y hy'

lemma dateShapeL_ne_nil {d : List Char} (h : dateShapeL d = true) : d ≠ [] := by
  rintro rfl
  simp [dateShapeL] at h

lemma parseConfigAndTail_eq_some {l : List Char}
    {x : List Char × (List Char × List Char × List Char × List Char × List Char)}
    (h : parseConfigAndTail l = some x) :
    ∃ c rest, l = c :: rest ∧ c ≠ '\n' ∧ scanConfig [c] rest = some x := by
  cases l with
  | nil => rw [parseConfigAndTail] at h; cases h
  | cons c rest =>
    rw [parseConfigAndTail] at h
    split at h
    · cases h
    · rename_i hc
      exact ⟨c, rest, rfl, hc, h⟩

lemma parseBody_eq_some {l : List Char} {p : Parsed} (h : parseBody l = some p) :
    p.date = "" ∧
    (p.device_chemistry.data ≠ [] ∧ ∀ c ∈ p.device_chemistry.data, c ≠ '-') ∧
    (p.device_pixel.data ≠ [] ∧ ∀ c ∈ p.device_pixel.data, c ≠ '_') ∧
    (p.device_configuration.data ≠ [] ∧ ∀ c ∈ p.device_configuration.data, c ≠ '\n') ∧
    (p.device_degradation.data ≠ [] ∧ ∀ c ∈ p.device_degradation.data, c ≠ '_') ∧
    (p.frequency_range.data ≠ [] ∧ ∀ c ∈ p.frequency_range.data, c ≠ '_') ∧
    (p.datapoint_capture.data ≠ [] ∧ ∀ c ∈ p.datapoint_capture.data, c ≠ '_') ∧
    (p.voltage_offset.data ≠ [] ∧ ∀ c ∈ p.voltage_offset.data, c ≠ '_') ∧
    (p.voltage_amplitude.data ≠ [] ∧ ∀ c ∈ p.voltage_amplitude.data, c ≠ 'V') := by
  unfold parseBody at h
  cases h1 : parseField '-' l with
  | none => rw [h1] at h; simp at h
  | some x1 =>
    obtain ⟨chem, l1⟩ := x1
    rw [h1] at h
    simp only [Option.bind_eq_bind, Option.some_bind] at h
    cases h2 : parseField '_' l1 with
    | none => rw [h2] at h; simp at h
    | some x2 =>
      obtain ⟨pixel, l2⟩ := x2
      rw [h2] at h
      simp only [Option.some_bind] at h
      cases h3 : parseConfigAndTail l2 with
      | none => rw [h3] at h; simp at h
      | some x3 =>
        obtain ⟨cfg, x4⟩ := x3
        obtain ⟨dg, fr, cp, off, amp⟩ := x4
        rw [h3] at h
        simp only [Option.some_bind, Option.pure_def, Option.some.injEq] at h
        obtain ⟨c, rest, hl2, hc, hscan⟩ := parseConfigAndTail_eq_some h3
        obtain ⟨m, t, hcfg, hm, ht⟩ := scanConfig_eq_some hscan
        have tails := parseTail_eq_some ht
        subst h
        refine ⟨rfl, parseField_eq_some h1, parseField_eq_some h2, ?_,
          tails.1, tails.2.1, tails.2.2.1, tails.2.2.2.1, tails.2.2.2.2⟩
        constructor
        · show cfg ≠ []
          rw [hcfg, List.singleton_append]
          simp
        · show ∀ x ∈ cfg, x ≠ '\n'
          rw [hcfg, List.singleton_append]
          intro y hy
          rcases List.mem_cons.mp hy with rfl | hy'
          · exact hc
          · exact hm y hy'

lemma parse_filename_eq_some {s : String} {p : Parsed} (h : parse_filename s = some p) :
    dateShapeL p.date.data = true ∧
    (p.device_chemistry.data ≠ [] ∧ ∀ c ∈ p.device_chemistry.data, c ≠ '-') ∧
    (p.device_pixel.data ≠ [] ∧ ∀ c ∈ p.device_pixel.data, c ≠ '_') ∧
    (p.device_configuration.data ≠ [] ∧ ∀ c ∈ p.device_configuration.data, c ≠ '\n') ∧
    (p.device_degradation.data ≠ [] ∧ ∀ c ∈ p.device_degradation.data, c ≠ '_') ∧
    (p.frequency_range.data ≠ [] ∧ ∀ c ∈ p.frequency_range.data, c ≠ '_') ∧
    (p.datapoint_capture.data ≠ [] ∧ ∀ c ∈ p.datapoint_capture.data, c ≠ '_') ∧
    (p.voltage_offset.data ≠ [] ∧ ∀ c ∈ p.voltage_offset.data, c ≠ '_') ∧
    (p.voltage_amplitude.data ≠ [] ∧ ∀ c ∈ p.voltage_amplitude.data, c ≠ 'V') := by
  unfold parse_filename parseF at h
  cases h1 : parseDate s.data with
  | none => rw [h1] at h; simp at h
  | some x1 =>
    obtain ⟨d, l1⟩ := x1
    rw [h1] at h
    simp only [Option.bind_eq_bind, Option.some_bind] at h
    cases h2 : parseBody l1 with
    | none => rw [h2] at h; simp at h
    | some q =>
      rw [h2] at h
      simp only [Option.some_bind] at h
      injection h with h1'
      have hshape := (parseDate_eq_some h1).1
      have hq := parseBody_eq_some h2
      subst h1'
      exact ⟨hshape, hq.2.1, hq.2.2.1, hq.2.2.2.1, hq.2.2.2.2.1, hq.2.2.2.2.2.1,
        hq.2.2.2.2.2.2.1, hq.2.2.2.2.2.2.2.1, hq.2.2.2.2.2.2.2.2⟩

/-- C5: for every filename, the parser either matches all nine fields —
each returned capture being a nonempty string — and the file enters the
parsed-files mapping, or it returns no match and the file is silently
excluded; nothing but complete parses is ever stored. -/
theorem claim5 (files : List String) (f : String) (hf : f ∈ files) :
    (∀ p, parse_filename f = some p →
      (f, p) ∈ parsed_files files ∧
      p.date.data ≠ [] ∧ p.device_chemistry.data ≠ [] ∧ p.device_pixel.data ≠ [] ∧
      p.device_configuration.data ≠ [] ∧ p.device_degradation.data ≠ [] ∧
      p.frequency_range.data ≠ [] ∧ p.datapoint_capture.data ≠ [] ∧
      p.voltage_offset.data ≠ [] ∧ p.voltage_amplitude.data ≠ []) ∧
    (parse_filename f = none → ∀ p, (f, p) ∉ parsed_files files) ∧
    (∀ p, (f, p) ∈ parsed_files files → parse_filename f = some p) := by
  refine ⟨fun p hp => ⟨mem_parsed_files.mpr ⟨hf, hp⟩, ?_⟩,
    fun hn p hp => ?_, fun p hp => (mem_parsed_files.mp hp).2⟩
  · have hx := parse_filename_eq_some hp
    exact ⟨dateShapeL_ne_nil hx.1, hx.2.1.1, hx.2.2.1.1, hx.2.2.2.1.1, hx.2.2.2.2.1.1,
      hx.2.2.2.2.2.1.1, hx.2.2.2.2.2.2.1.1, hx.2.2.2.2.2.2.2.1.1, hx.2.2.2.2.2.2.2.2.1⟩
  · have hsome := (mem_parsed_files.mp hp).2
    rw [hn] at hsome
    cases hsome

theorem claim5_witness :
    "2020-01-01_A-B_c-config_0daydeg_500k-5kHz_100p_0off_1Vpk.txt" ∈
      ["2020-01-01_A-B_c-config_0daydeg_500k-5kHz_100p_0off_1Vpk.txt"] ∧
    parse_filename "2020-01-01_A-B_c-config_0daydeg_500k-5kHz_100p_0off_1Vpk.txt" =
      some ⟨"2020-01-01", "A", "B", "c", "0daydeg", "500k-5kHz", "100p", "0off", "1"⟩ ∧
    ("2020-01-01_A-B_c-config_0daydeg_500k-5kHz_100p_0off_1Vpk.txt",
      (⟨"2020-01-01", "A", "B", "c", "0daydeg", "500k-5kHz", "100p", "0off", "1"⟩ : Parsed)) ∈
      parsed_files ["2020-01-01_A-B_c-config_0daydeg_500k-5kHz_100p_0off_1Vpk.txt"] :=
  ⟨List.mem_singleton_self _, by decide,
    ((claim5 ["2020-01-01_A-B_c-config_0daydeg_500k-5kHz_100p_0off_1Vpk.txt"]
      "2020-01-01_A-B_c-config_0daydeg_500k-5kHz_100p_0off_1Vpk.txt"
      (List.mem_singleton_self _)).1
      ⟨"2020-01-01", "A", "B", "c", "0daydeg", "500k-5kHz", "100p", "0off", "1"⟩
      (by decide)).1⟩

/-- C9 counterexample: the claim quantifies over every filename whose
leading token has the date digit shape, but a filename whose remainder
does not match the rest of the grammar fails to parse even with a
shape-valid leading token. -/
theorem claim9_counterexample :
    dateShapeL ("2023-99-99" : String).data = true ∧
    parse_filename "2023-99-99_x" = none := by
  exact ⟨by decide, by decide⟩

/-- C9 (amended): the parser validates the date field by digit shape
only: for every filename whose leading token is four digits, hyphen, two
digits, hyphen, two digits and whose remainder matches the rest of the
grammar, parsing succeeds and returns that token as the date even when
it is not a valid calendar date (such as 2023-99-99); calendar validity
is enforced only later, when the newest-date computation parses the date
strings with the strict calendar parser, which rejects 2023-99-99. -/
theorem claim9_amended :
    (∀ (d : List Char) (s : String), dateShapeL d = true →
      parse_filename ((⟨d⟩ : String) ++ "_" ++ s) =
        (parseBody s.data).map (fun p => { p with date := (⟨d⟩ : String) })) ∧
    parse_filename "2023-99-99_A-B_c-config_0daydeg_500k-5kHz_100p_0off_1Vpk.txt" =
      some ⟨"2023-99-99", "A", "B", "c", "0daydeg", "500k-5kHz", "100p", "0off", "1"⟩ ∧
    parseDateStrict "2023-99-99" = none ∧
    newest_date ["2023-99-99"] = none := by
  refine ⟨fun d s h => ?_, by decide, by decide, by decide⟩
  unfold parse_filename parseF
  have hdata : ((⟨d⟩ : String) ++ "_" ++ s).data = d ++ '_' :: s.data := by
    simp [List.append_assoc]
  rw [hdata, parseDate_of_shape s.data h]
  simp only [Option.bind_eq_bind, Option.some_bind]
  cases parseBody s.data <;> rfl

theorem claim9_witness :
    dateShapeL ("2023-99-99" : String).data = true ∧
    parse_filename (("2023-99-99" : String) ++ "_" ++
        "A-B_c-config_0daydeg_500k-5kHz_100p_0off_1Vpk.txt") =
      (parseBody ("A-B_c-config_0daydeg_500k-5kHz_100p_0off_1Vpk.txt" : String).data).map
        (fun p => { p with date := ("2023-99-99" : String) }) :=
  ⟨by decide, claim9_amended.1 ("2023-99-99" : String).data
    "A-B_c-config_0daydeg_500k-5kHz_100p_0off_1Vpk.txt" (by decide)⟩

lemma isDigit_ne {c : Char} (h : c.isDigit = true) {d : Char} (hd : d.isDigit = false) :
    c ≠ d := by
  rintro rfl
  rw [h] at hd
  cases hd

lemma natToCharsAux_digits :
    ∀ fuel n, n < fuel → ∀ c ∈ natToCharsAux fuel n, c.isDigit = true := by
  intro fuel
  induction fuel with
  | zero => exact fun n hn => absurd hn (Nat.not_lt_zero n)
  | succ fuel ih =>
    intro n hn c hc
    simp only [natToCharsAux] at hc
    split at hc
    · rename_i h10
      simp only [List.mem_singleton] at hc
      subst hc
      interval_cases n <;> decide
    · rename_i h10
      rcases List.mem_append.mp hc with h | h
      · have hd : n / 10 < n := Nat.div_lt_self (by omega) (by omega)
        exact ih (n / 10) (by omega) c h
      · simp only [List.mem_singleton] at h
        subst h
        have hm : n % 10 < 10 := Nat.mod_lt _ (by omega)
        obtain ⟨m, hm10, hmeq⟩ : ∃ m, m < 10 ∧ n % 10 = m := ⟨n % 10, hm, rfl⟩
        rw [hmeq]
        interval_cases m <;> decide

lemma natToChars_digits (n : ℕ) : ∀ c ∈ natToChars n, c.isDigit = true :=
  natToCharsAux_digits (n + 1) n (by omega)

lemma natToChars_ne_nil (n : ℕ) : natToChars n ≠ [] := by
  unfold natToChars
  simp only [natToCharsAux]
  split
  · simp
  · simp

lemma scanConfig_isSome (acc m : List Char) {t : List Char}
    {x : List Char × List Char × List Char × List Char × List Char}
    (h : parseTail t = some x) :
    (∀ c ∈ m, c ≠ '\n') →
    (scanConfig acc
      (m ++ ('-' :: 'c' :: 'o' :: 'n' :: 'f' :: 'i' :: 'g' :: '_' :: t))).isSome = true := by
  induction m generalizing acc with
  | nil =>
    intro _
    rw [List.nil_append, scanConfig_found acc h]
    rfl
  | cons c m' ih =>
    intro hm
    rw [List.cons_append, scanConfig_cons]
    split
    · rfl
    · rw [if_neg (hm c (List.mem_cons_self c m'))]
      exact ih (acc ++ [c]) (fun y hy => hm y (List.mem_cons_of_mem c hy))

lemma parseF_to_scan (d chem pixel : List Char) (c0 : Char) (crest : List Char)
    (hd : dateShapeL d = true)
    (hchem1 : chem ≠ []) (hchem2 : ∀ c ∈ chem, c ≠ '-')
    (hpix1 : pixel ≠ []) (hpix2 : ∀ c ∈ pixel, c ≠ '_')
    (hc0 : c0 ≠ '\n') :
    parseF (d ++ '_' :: (chem ++ '-' :: (pixel ++ '_' :: (c0 :: crest)))) =
      (scanConfig [c0] crest).map (fun a =>
        { date := ⟨d⟩, device_chemistry := ⟨chem⟩, device_pixel := ⟨pixel⟩,
          device_configuration := ⟨a.1⟩, device_degradation := ⟨a.2.1⟩,
          frequency_range := ⟨a.2.2.1⟩, datapoint_capture := ⟨a.2.2.2.1⟩,
          voltage_offset := ⟨a.2.2.2.2.1⟩, voltage_amplitude := ⟨a.2.2.2.2.2⟩ }) := by
  unfold parseF parseBody
  rw [parseDate_of_shape _ hd]
  simp only [Option.bind_eq_bind, Option.some_bind]
  rw [parseField_exact _ hchem1 hchem2]
  simp only [Option.some_bind]
  rw [parseField_exact _ hpix1 hpix2]
  simp only [Option.some_bind]
  rw [parseConfigAndTail, if_neg hc0]
  cases scanConfig [c0] crest <;> rfl

lemma parseF_synth_exact (d chem pixel config dg fr cp off amp tail : List Char)
    (hd : dateShapeL d = true)
    (hchem1 : chem ≠ []) (hchem2 : ∀ c ∈ chem, c ≠ '-')
    (hpix1 : pixel ≠ []) (hpix2 : ∀ c ∈ pixel, c ≠ '_')
    (hcfg1 : config ≠ []) (hcfg2 : ∀ c ∈ config, c ≠ '\n')
    (hinner : ∀ i, 1 ≤ i → i + 8 ≤ config.length →
      startsWithLit configLit (config.drop i) = false)
    (hdg1 : dg ≠ []) (hdg2 : ∀ c ∈ dg, c ≠ '_')
    (hfr1 : fr ≠ []) (hfr2 : ∀ c ∈ fr, c ≠ '_')
    (hcp1 : cp ≠ []) (hcp2 : ∀ c ∈ cp, c ≠ '_')
    (hoff1 : off ≠ []) (hoff2 : ∀ c ∈ off, c ≠ '_')
    (hamp1 : amp ≠ []) (hamp2 : ∀ c ∈ amp, c ≠ 'V') :
    parseF (d ++ '_' :: (chem ++ '-' :: (pixel ++ '_' :: (config ++
        '-' :: 'c' :: 'o' :: 'n' :: 'f' :: 'i' :: 'g' :: '_' :: (dg ++ '_' :: (fr ++ '_' ::
        (cp ++ '_' :: (off ++ '_' :: (amp ++ 'V' :: 'p' :: 'k' :: tail))))))))) =
      some ⟨⟨d⟩, ⟨chem⟩, ⟨pixel⟩, ⟨config⟩, ⟨dg⟩, ⟨fr⟩, ⟨cp⟩, ⟨off⟩, ⟨amp⟩⟩ := by
  have hT : parseTail (dg ++ '_' :: (fr ++ '_' :: (cp ++ '_' :: (off ++ '_' ::
      (amp ++ 'V' :: 'p' :: 'k' :: tail))))) = some (dg, fr, cp, off, amp) :=
    parseTail_exact tail hdg1 hdg2 hfr1 hfr2 hcp1 hcp2 hoff1 hoff2 hamp1 hamp2
  obtain ⟨c0, crest, rfl⟩ : ∃ c0 crest, config = c0 :: crest := by
    cases config with
    | nil => exact absurd rfl hcfg1
    | cons a b => exact ⟨a, b, rfl⟩
  have hc0 : c0 ≠ '\n' := hcfg2 c0 (List.mem_cons_self c0 crest)
  rw [List.cons_append, parseF_to_scan d chem pixel c0 _ hd hchem1 hchem2 hpix1 hpix2 hc0]
  have hfail : ∀ i, i < crest.length →
      startsWithLit configLit (crest.drop i ++
        ('-' :: 'c' :: 'o' :: 'n' :: 'f' :: 'i' :: 'g' :: '_' :: (dg ++ '_' :: (fr ++ '_' ::
          (cp ++ '_' :: (off ++ '_' :: (amp ++ 'V' :: 'p' :: 'k' :: tail))))))) = false := by
    intro i hi
    have hcons : ('-' :: 'c' :: 'o' :: 'n' :: 'f' :: 'i' :: 'g' :: '_' :: (dg ++ '_' ::
        (fr ++ '_' :: (cp ++ '_' :: (off ++ '_' :: (amp ++ 'V' :: 'p' :: 'k' :: tail)))))) =
        configLit ++ (dg ++ '_' :: (fr ++ '_' :: (cp ++ '_' :: (off ++ '_' ::
          (amp ++ 'V' :: 'p' :: 'k' :: tail))))) := rfl
    rw [hcons]
    by_cases hwin : (i + 1) + 8 ≤ (c0 :: crest).length
    · have hlen : configLit.length ≤ (crest.drop i).length := by
        have h8 : configLit.length = 8 := rfl
        rw [h8, List.length_drop]
        rw [List.length_cons] at hwin
        omega
      rw [startsWithLit_append_of_le _ hlen]
      have hdrop : crest.drop i = (c0 :: crest).drop (i + 1) := rfl
      rw [hdrop]
      exact hinner (i + 1) (by omega) hwin
    · rw [startsWithLit_split]
      have hk1 : 1 ≤ (crest.drop i).length := by
        rw [List.length_drop]
        omega
      have hk7 : (crest.drop i).length ≤ 7 := by
        rw [List.length_drop]
        simp only [List.length_cons] at hwin
        omega
      rw [configLit_no_overlap _ hk1 hk7, Bool.and_false]
  rw [scanConfig_skip [c0] crest _ (fun y hy => hcfg2 y (List.mem_cons_of_mem c0 hy)) hfail,
    List.singleton_append, scanConfig_found (c0 :: crest) hT]
  rfl

lemma parseF_synth_isSome (d chem pixel config dg fr cp off amp tail : List Char)
    (hd : dateShapeL d = true)
    (hchem1 : chem ≠ []) (hchem2 : ∀ c ∈ chem, c ≠ '-')
    (hpix1 : pixel ≠ []) (hpix2 : ∀ c ∈ pixel, c ≠ '_')
    (hcfg1 : config ≠ []) (hcfg2 : ∀ c ∈ config, c ≠ '\n')
    (hdg1 : dg ≠ []) (hdg2 : ∀ c ∈ dg, c ≠ '_')
    (hfr1 : fr ≠ []) (hfr2 : ∀ c ∈ fr, c ≠ '_')
    (hcp1 : cp ≠ []) (hcp2 : ∀ c ∈ cp, c ≠ '_')
    (hoff1 : off ≠ []) (hoff2 : ∀ c ∈ off, c ≠ '_')
    (hamp1 : amp ≠ []) (hamp2 : ∀ c ∈ amp, c ≠ 'V') :
    (parseF (d ++ '_' :: (chem ++ '-' :: (pixel ++ '_' :: (config ++
        '-' :: 'c' :: 'o' :: 'n' :: 'f' :: 'i' :: 'g' :: '_' :: (dg ++ '_' :: (fr ++ '_' ::
        (cp ++ '_' :: (off ++ '_' :: (amp ++ 'V' :: 'p' :: 'k' :: tail)))))))))).isSome = true := by
  have hT : parseTail (dg ++ '_' :: (fr ++ '_' :: (cp ++ '_' :: (off ++ '_' ::
      (amp ++ 'V' :: 'p' :: 'k' :: tail))))) = some (dg, fr, cp, off, amp) :=
    parseTail_exact tail hdg1 hdg2 hfr1 hfr2 hcp1 hcp2 hoff1 hoff2 hamp1 hamp2
  obtain ⟨c0, crest, rfl⟩ : ∃ c0 crest, config = c0 :: crest := by
    cases config with
    | nil => exact absurd rfl hcfg1
    | cons a b => exact ⟨a, b, rfl⟩
  have hc0 : c0 ≠ '\n' := hcfg2 c0 (List.mem_cons_self c0 crest)
  rw [List.cons_append, parseF_to_scan d chem pixel c0 _ hd hchem1 hchem2 hpix1 hpix2 hc0]
  have hsome := scanConfig_isSome [c0] crest hT
    (fun y hy => hcfg2 y (List.mem_cons_of_mem c0 hy))
  cases hsc : scanConfig [c0] (crest ++ ('-' :: 'c' :: 'o' :: 'n' :: 'f' :: 'i' :: 'g' :: '_' ::
      (dg ++ '_' :: (fr ++ '_' :: (cp ++ '_' :: (off ++ '_' ::
        (amp ++ 'V' :: 'p' :: 'k' :: tail))))))) with
  | none => rw [hsc] at hsome; cases hsome
  | some v => rfl

/-- C3 counterexample: a combinable group of three well-formed files
whose configuration token contains `-config_` internally.  All three
files parse (with configuration token a-config_u_w), they share one
group key and carry exactly the three required ranges, and the batch
synthesis produces the expected filename; but re-parsing that filename
makes the non-greedy configuration match stop earlier, returning
degradation u, frequency range w-config and capture 3daydeg instead of
the synthesized tokens 3daydeg, 500k-1Hz and 300p-1s. -/
theorem claim3_counterexample :
    parse_filename "2020-01-01_A-B_a-config_u_w-config_3daydeg_500k-5kHz_100pVa_ooff_1Vpk.txt" =
      some ⟨"2020-01-01", "A", "B", "a-config_u_w", "3daydeg", "500k-5kHz", "100pVa", "ooff", "1"⟩ ∧
    parse_filename "2020-01-01_A-B_a-config_u_w-config_3daydeg_5k-200Hz_100pVa_ooff_1Vpk.txt" =
      some ⟨"2020-01-01", "A", "B", "a-config_u_w", "3daydeg", "5k-200Hz", "100pVa", "ooff", "1"⟩ ∧
    parse_filename "2020-01-01_A-B_a-config_u_w-config_3daydeg_200-1Hz_100pVa_ooff_1Vpk.txt" =
      some ⟨"2020-01-01", "A", "B", "a-config_u_w", "3daydeg", "200-1Hz", "100pVa", "ooff", "1"⟩ ∧
    rangesMatch (frequency_ranges
      [⟨"2020-01-01", "A", "B", "a-config_u_w", "3daydeg", "500k-5kHz", "100pVa", "ooff", "1"⟩,
       ⟨"2020-01-01", "A", "B", "a-config_u_w", "3daydeg", "5k-200Hz", "100pVa", "ooff", "1"⟩,
       ⟨"2020-01-01", "A", "B", "a-config_u_w", "3daydeg", "200-1Hz", "100pVa", "ooff", "1"⟩]) = true ∧
    processGroup ⟨"A", "B", "a-config_u_w", "ooff", "1"⟩
      [⟨"2020-01-01", "A", "B", "a-config_u_w", "3daydeg", "500k-5kHz", "100pVa", "ooff", "1"⟩,
       ⟨"2020-01-01", "A", "B", "a-config_u_w", "3daydeg", "5k-200Hz", "100pVa", "ooff", "1"⟩,
       ⟨"2020-01-01", "A", "B", "a-config_u_w", "3daydeg", "200-1Hz", "100pVa", "ooff", "1"⟩] [] =
      some ("2020-01-01_A-B_a-config_u_w-config_3daydeg_500k-1Hz_300p-1s_ooff_1Vpk.txt", []) ∧
    (parse_filename
        "2020-01-01_A-B_a-config_u_w-config_3daydeg_500k-1Hz_300p-1s_ooff_1Vpk.txt").map
        (fun q => (q.device_degradation, q.frequency_range, q.datapoint_capture)) =
      some ("u", "w-config", "3daydeg") ∧
    (("u", "w-config", "3daydeg") : String × String × String) ≠
      ("3daydeg", "500k-1Hz", "300p-1s") := by
  exact ⟨by decide, by decide, by decide, by decide, by decide, by decide, by decide⟩

/-- C3 (amended): for every parsed file and every shape-valid date, the
filename synthesized by the batch tool from the file's key fields, a
peak degradation and a total capture count always matches the
nine-field grammar; and provided the configuration token contains no
internal occurrence of the literal -config_ (at any position past its
first character), re-parsing the synthesized filename returns
device_degradation, frequency_range and datapoint_capture exactly equal
to the synthesized tokens.  (The counterexample shows the proviso is
necessary: an internal -config_ can make the non-greedy configuration
match stop earlier on the synthesized name.) -/
theorem claim3_amended (forig : String) (p : Parsed) (hp : parse_filename forig = some p)
    (d : String) (hd : dateShapeL d.data = true) (peak total : ℕ) :
    (parse_filename (new_filename d p.device_chemistry p.device_pixel
        p.device_configuration peak total p.voltage_offset p.voltage_amplitude)).isSome = true ∧
    ((∀ i, 1 ≤ i → i + 8 ≤ p.device_configuration.data.length →
        startsWithLit configLit (p.device_configuration.data.drop i) = false) →
      parse_filename (new_filename d p.device_chemistry p.device_pixel
          p.device_configuration peak total p.voltage_offset p.voltage_amplitude) =
        some ⟨d, p.device_chemistry, p.device_pixel, p.device_configuration,
          natStr peak ++ "daydeg", "500k-1Hz", natStr total ++ "p-1s",
          p.voltage_offset, p.voltage_amplitude⟩) := by
  obtain ⟨hdate, hchem, hpix, hcfg, hdeg, hfrq, hcap, hoff, hamp⟩ := parse_filename_eq_some hp
  have hdata : (new_filename d p.device_chemistry p.device_pixel p.device_configuration
      peak total p.voltage_offset p.voltage_amplitude).data =
      d.data ++ '_' :: (p.device_chemistry.data ++ '-' :: (p.device_pixel.data ++ '_' ::
        (p.device_configuration.data ++
          '-' :: 'c' :: 'o' :: 'n' :: 'f' :: 'i' :: 'g' :: '_' ::
          ((natToChars peak ++ ('d' :: 'a' :: 'y' :: 'd' :: 'e' :: 'g' :: [])) ++ '_' ::
          (('5' :: '0' :: '0' :: 'k' :: '-' :: '1' :: 'H' :: 'z' :: []) ++ '_' ::
          ((natToChars total ++ ('p' :: '-' :: '1' :: 's' :: [])) ++ '_' ::
          (p.voltage_offset.data ++ '_' ::
          (p.voltage_amplitude.data ++ 'V' :: 'p' :: 'k' ::
            ('.' :: 't' :: 'x' :: 't' :: []))))))))) := by
    simp [new_filename, natStr, List.append_assoc]
  have hdg1 : (natToChars peak ++ ('d' :: 'a' :: 'y' :: 'd' :: 'e' :: 'g' :: [])) ≠ [] := by
    simp [List.append_eq_nil]
  have hdg2 : ∀ c ∈ natToChars peak ++ ('d' :: 'a' :: 'y' :: 'd' :: 'e' :: 'g' :: []),
      c ≠ '_' := by
    intro c hc
    rcases List.mem_append.mp hc with h | h
    · exact isDigit_ne (natToChars_digits peak c h) (by decide)
    · simp only [List.mem_cons, List.not_mem_nil, or_false] at h
      rcases h with rfl | rfl | rfl | rfl | rfl | rfl <;> decide
  have hcp1 : (natToChars total ++ ('p' :: '-' :: '1' :: 's' :: [])) ≠ [] := by
    simp [List.append_eq_nil]
  have hcp2 : ∀ c ∈ natToChars total ++ ('p' :: '-' :: '1' :: 's' :: []), c ≠ '_' := by
    intro c hc
    rcases List.mem_append.mp hc with h | h
    · exact isDigit_ne (natToChars_digits total c h) (by decide)
    · simp only [List.mem_cons, List.not_mem_nil, or_false] at h
      rcases h with rfl | rfl | rfl | rfl <;> decide
  unfold parse_filename
  constructor
  · rw [hdata]
    exact parseF_synth_isSome _ _ _ _ _ _ _ _ _ _ hd hchem.1 hchem.2 hpix.1 hpix.2
      hcfg.1 hcfg.2 hdg1 hdg2 (by decide) (by decide) hcp1 hcp2 hoff.1 hoff.2 hamp.1 hamp.2
  · intro hinner
    rw [hdata]
    exact parseF_synth_exact _ _ _ _ _ _ _ _ _ _ hd hchem.1 hchem.2 hpix.1 hpix.2
      hcfg.1 hcfg.2 hinner hdg1 hdg2 (by decide) (by decide) hcp1 hcp2 hoff.1 hoff.2
      hamp.1 hamp.2

theorem claim3_witness :
    parse_filename "2020-01-01_A-B_c-config_0daydeg_500k-5kHz_100p_0off_1Vpk.txt" =
      some ⟨"2020-01-01", "A", "B", "c", "0daydeg", "500k-5kHz", "100p", "0off", "1"⟩ ∧
    dateShapeL ("2020-01-01" : String).data = true ∧
    parse_filename (new_filename "2020-01-01" "A" "B" "c" 3 300 "0off" "1") =
      some ⟨"2020-01-01", "A", "B", "c", natStr 3 ++ "daydeg", "500k-1Hz",
        natStr 300 ++ "p-1s", "0off", "1"⟩ :=
  ⟨by decide, by decide,
    (claim3_amended "2020-01-01_A-B_c-config_0daydeg_500k-5kHz_100p_0off_1Vpk.txt"
      ⟨"2020-01-01", "A", "B", "c", "0daydeg", "500k-5kHz", "100p", "0off", "1"⟩
      (by decide) "2020-01-01" (by decide) 3 300).2
      (by
        intro i h1 h2
        have hl : (⟨"2020-01-01", "A", "B", "c", "0daydeg", "500k-5kHz", "100p", "0off",
            "1"⟩ : Parsed).device_configuration.data.length = 1 := rfl
        rw [hl] at h2
        omega)⟩

/-- C4: the capture-count total is the sum, over all member files, of
every maximal decimal integer substring in that member's
datapoint_capture token: tokens "100p" and "50p" contribute 150, a
token "10p5s" embedding two integers contributes 15 (10 + 5), and the
total is additive over the members. -/
theorem claim4 :
    sum_datapoint_capture ["100p", "50p"] = 150 ∧
    sum_datapoint_capture ["10p5s"] = 15 ∧
    ∀ xs ys : List String,
      sum_datapoint_capture (xs ++ ys) =
        sum_datapoint_capture xs + sum_datapoint_capture ys := by
  refine ⟨by decide, by decide, fun xs ys => ?_⟩
  simp [sum_datapoint_capture]

/-- C7 counterexample: the derived normalized-output column does not
equal (primary / (voltage_amplitude / √2)) * 100: the code divides by
voltage_amplitude / 1.4142, and 1.4142 is not √2, so already at
primary = 1, voltage_amplitude = 1 the two values differ. -/
theorem claim7_counterexample :
    ((Normalized_Vout 1 1 : ℚ) : ℝ) ≠ ((1 : ℝ) / ((1 : ℝ) / Real.sqrt 2)) * 100 := by
  have hs : Real.sqrt 2 ^ 2 = 2 := Real.sq_sqrt (by norm_num)
  have hv : ((Normalized_Vout 1 1 : ℚ) : ℝ) = 14142 / 100 := by
    norm_num [Normalized_Vout]
  rw [hv, one_div_one_div]
  intro h
  have e : Real.sqrt 2 = 14142 / 10000 := by linarith
  rw [e] at hs
  norm_num at hs

/-- C7 (amended): the derived normalized-output-percentage column equals
(primary / (voltage_amplitude / 1.4142)) * 100 — the code's 1.4142 being
a five-digit approximation of √2 — for every row; in particular, for
voltage_amplitude 1.0 and primary channel value 0.7071 the result is
within 0.01 of 100.0. -/
theorem claim7_amended :
    (∀ primary va : ℚ, va ≠ 0 →
      Normalized_Vout primary va = primary * (14142 / 10000) * 100 / va) ∧
    |Normalized_Vout (7071 / 10000) 1 - 100| < 1 / 100 := by
  constructor
  · intro p va h
    unfold Normalized_Vout
    ring
  · norm_num [Normalized_Vout, abs_lt]

theorem claim7_witness :
    Normalized_Vout 1 2 = 1 * (14142 / 10000) * 100 / 2 :=
  claim7_amended.1 1 2 (by norm_num)

/-- C8: in the viewer's statistics aggregation, a
(chemistry, amplitude, frequency) cell with exactly one contributing row
has a missing sample standard deviation (none, not zero and not an
error) while its mean is still defined. -/
theorem claim8 (rows : List VRow) (c : String) (va f : ℚ)
    (h : (cellValues rows c va f).length = 1) :
    stdCell (cellValues rows c va f) = none ∧
    (meanCell (cellValues rows c va f)).isSome = true := by
  constructor
  · simp [stdCell, h]
  · simp [meanCell, h]

theorem claim8_witness :
    (cellValues [⟨"A", 1, 1000, 5⟩] "A" 1 1000).length = 1 ∧
    stdCell (cellValues [⟨"A", 1, 1000, 5⟩] "A" 1 1000) = none ∧
    (meanCell (cellValues [⟨"A", 1, 1000, 5⟩] "A" 1 1000)).isSome = true := by
  refine ⟨by decide, ?_, ?_⟩
  · exact (claim8 [⟨"A", 1, 1000, 5⟩] "A" 1 1000 (by decide)).1
  · exact (claim8 [⟨"A", 1, 1000, 5⟩] "A" 1 1000 (by decide)).2

/-- C10: both entry points only process directory entries ending in
`.txt`: a file whose name matches the grammar but does not end in
`.txt` never enters the txt list, the parsed-files mapping, or any
group's member list. -/
theorem claim10 (entries : List String) (f : String)
    (hmatch : (parse_filename f).isSome = true)
    (htxt : hasSuffixTxt f = false) :
    f ∉ txt_files entries ∧
    (∀ p, (f, p) ∉ parsed_files (txt_files entries)) ∧
    (∀ excl k ms, (k, ms) ∈ grouped_files excl (parsed_files (txt_files entries)) →
      f ∉ ms) := by
  have h1 : f ∉ txt_files entries := by
    intro h
    rw [txt_files, List.mem_filter, htxt] at h
    exact absurd h.2 (by simp)
  refine ⟨h1, fun p hp => ?_, fun excl k ms hg hf => ?_⟩
  · exact h1 (mem_parsed_files.mp hp).1
  · obtain ⟨p, hp, -⟩ := (mem_group_members hg).mp hf
    exact h1 (mem_parsed_files.mp hp).1

theorem claim10_witness :
    (parse_filename "2020-01-01_A-B_c-config_0daydeg_500k-5kHz_100p_0off_1Vpk").isSome = true ∧
    hasSuffixTxt "2020-01-01_A-B_c-config_0daydeg_500k-5kHz_100p_0off_1Vpk" = false ∧
    "2020-01-01_A-B_c-config_0daydeg_500k-5kHz_100p_0off_1Vpk" ∉
      txt_files ["2020-01-01_A-B_c-config_0daydeg_500k-5kHz_100p_0off_1Vpk"] :=
  ⟨by decide, by decide,
    (claim10 ["2020-01-01_A-B_c-config_0daydeg_500k-5kHz_100p_0off_1Vpk"]
      "2020-01-01_A-B_c-config_0daydeg_500k-5kHz_100p_0off_1Vpk"
      (by decide) (by decide)).1⟩

end FreqFilter
